import Mathlib

/-!
Verification development for the health-chatbot backend.

The backend relays text / image health queries to an external generative
model.  The pieces modelled here, translated line by line from the
JavaScript source, are:

* the response normalizer of the two chat endpoints (split on `"\n"`,
  strip markdown noise per line, collapse whitespace, drop separator and
  short lines);
* the health-domain classifier `isHealthRelated` (fail-closed);
* the two chat request handlers (`/api/chat`, `/api/chat-with-image`);
* the routine generator (`/api/v1/routine/generate`): validation, prompt
  assembly, backtick-fence stripping, strict `JSON.parse`, the
  array-of-strings shape check, and the per-user upsert into the store.

Strings are modelled as `List Char`.  The external generation capability
is a parameter `gen : List GenPart → Except (List Char) (List Char)`
(a deterministic oracle: parts in, either a thrown error or the reply
text out).  Handlers additionally return the list of capability calls
they issued, so that "the capability is never invoked" is a statement
about that trace.  Wall-clock time is a `Nat` parameter.  File-system
cleanup of the temporary upload (`fs.unlinkSync`) and the Mongo error
paths are not modelled: no claim below depends on them.
-/

/-- Whitespace per the JavaScript `\s` class (also used by `String.trim`):
ASCII whitespace plus the Unicode space separators, line separators and
the BOM. -/
def isWs (c : Char) : Bool :=
  c == ' ' || c == '\t' || c == '\n' || c == '\r' || c == '\u000B' || c == '\u000C' ||
  c == '\u00A0' || c == '\u1680' || (0x2000 ≤ c.toNat && c.toNat ≤ 0x200A) ||
  c == '\u2028' || c == '\u2029' || c == '\u202F' || c == '\u205F' || c == '\u3000' ||
  c == '\uFEFF'

/-- Model of `text.split("\n")`: every occurrence of `'\n'` separates two
(possibly empty) lines. -/
def splitLines : List Char → List (List Char)
  | [] => [[]]
  | c :: rest =>
    if c == '\n' then [] :: splitLines rest
    else
      match splitLines rest with
      | line :: ls => (c :: line) :: ls
      | [] => [[c]]

/-- Model of `.replace(/\*\*/g, "")`: delete every (non-overlapping,
left-to-right) occurrence of two consecutive asterisks. -/
def removeBold : List Char → List Char
  | [] => []
  | [c] => [c]
  | c :: d :: rest =>
    if c == '*' && d == '*' then removeBold rest
    else c :: removeBold (d :: rest)

/-- Model of `.replace(/\*/g, "")`: delete every asterisk. -/
def removeItalic (l : List Char) : List Char :=
  l.filter (fun c => !(c == '*'))

/-- Model of `.replace(/^[-•*]\s*/, "")`: drop one leading bullet marker
together with the whitespace behind it. -/
def stripBullet : List Char → List Char
  | [] => []
  | c :: rest =>
    if c == '-' || c == '•' || c == '*' then rest.dropWhile isWs
    else c :: rest

/-- Model of `.replace(/^#+\s*/, "")`: drop a leading run of `#` together
with the whitespace behind it. -/
def stripHeader (l : List Char) : List Char :=
  match l with
  | c :: _ => if c == '#' then (l.dropWhile (fun d => d == '#')).dropWhile isWs else l
  | [] => []

/-- Scanner for `collapseWs`: the flag records whether the previous
character belonged to a whitespace run that has already emitted its
space. -/
def collapseWsAux : Bool → List Char → List Char
  | _, [] => []
  | prevWs, c :: rest =>
    if isWs c then
      if prevWs then collapseWsAux true rest
      else ' ' :: collapseWsAux true rest
    else c :: collapseWsAux false rest

/-- Model of `.replace(/\s+/g, " ")`: every maximal whitespace run becomes
one space. -/
def collapseWs (l : List Char) : List Char :=
  collapseWsAux false l

/-- Trailing-whitespace strip (the second half of `String.trim`). -/
def dropTrailingWs (l : List Char) : List Char :=
  (l.reverse.dropWhile isWs).reverse

/-- Model of `String.prototype.trim`. -/
def trimChars (l : List Char) : List Char :=
  dropTrailingWs (l.dropWhile isWs)

/-- The per-line cleanup of the points pipeline, in the source's order:
bold, italics, leading bullet, leading header, whitespace collapse, trim. -/
def cleanLine (l : List Char) : List Char :=
  trimChars (collapseWs (stripHeader (stripBullet (removeItalic (removeBold l)))))

/-- Model of the test `point.match(/^[:#\-=]/)`: the line begins with a
separator character. -/
def startsWithSep : List Char → Bool
  | [] => false
  | c :: _ => c == ':' || c == '#' || c == '-' || c == '='

/-- The points pipeline of `app.post("/api/chat")` (the identical code is
repeated in `app.post("/api/chat-with-image")`): split into lines, keep
lines whose trim is non-empty, clean each line, keep non-empty lines not
beginning with a separator, keep lines longer than 10 characters. -/
def normalizePoints (text : List Char) : List (List Char) :=
  ((((splitLines text).filter (fun line => !(trimChars line).isEmpty)).map cleanLine).filter
      (fun point => !point.isEmpty && !startsWithSep point)).filter
    (fun point => decide (10 < point.length))

/-- Separator characters named by the specification's discard rule. -/
def isSepChar (c : Char) : Bool :=
  c == ':' || c == '#' || c == '-' || c == '='

/-- Modelled from the spec's words, for comparison with `normalizePoints`:
discard lines that after cleanup are empty, consist solely of the
separator characters, or have length at most 10. -/
def specDiscard (point : List Char) : Bool :=
  point.isEmpty || point.all isSepChar || decide (point.length ≤ 10)

/-- The reference normalizer exactly as the specification words it. -/
def specNormalizePoints (text : List Char) : List (List Char) :=
  ((splitLines text).map cleanLine).filter (fun point => !specDiscard point)

/-- The amended discard rule actually implemented: discard lines that are
empty, begin with a separator character, or have length at most 10. -/
def amendedDiscard (point : List Char) : Bool :=
  point.isEmpty || startsWithSep point || decide (point.length ≤ 10)

/-- The reference normalizer with the amended discard rule. -/
def amendedNormalizePoints (text : List Char) : List (List Char) :=
  ((splitLines text).map cleanLine).filter (fun point => !amendedDiscard point)

/-- Model of joining point strings with `"\n"` (`Array.prototype.join`). -/
def joinPoints : List (List Char) → List Char
  | [] => []
  | [p] => p
  | p :: rest => p ++ '\n' :: joinPoints rest

/-- One part of a `generateContent` request: a text part or an inline
base64 data part. -/
inductive GenPart where
  | text (s : List Char)
  | inlineData (data : List Char) (mimeType : List Char)
deriving DecidableEq

/-- One recorded call to the generation capability, tagged with the call
site: the classification helper or the answer / routine generation step. -/
inductive GenCall where
  | classify (parts : List GenPart)
  | answer (parts : List GenPart)
deriving DecidableEq

/-- Whether a recorded call is an answer-generation call. -/
def GenCall.isAnswer : GenCall → Bool
  | GenCall.classify _ => false
  | GenCall.answer _ => true

/-- Whether a recorded call is a classification call. -/
def GenCall.isClassify : GenCall → Bool
  | GenCall.classify _ => true
  | GenCall.answer _ => false

/-- The classification prompt built by `isHealthRelated`. -/
def classifyPrompt (message : List Char) : List Char :=
  "Determine if this message is related to healthcare, medicine, wellness, or health. Only respond with 'true' or 'false': \"".data ++
    message ++ "\"".data

/-- Model of `.toLowerCase().trim()` applied to the classifier reply. -/
def jsLowerTrim (l : List Char) : List Char :=
  trimChars (l.map Char.toLower)

/-- Model of `isHealthRelated`: one capability call; the reply is
lower-cased, trimmed and compared with `"true"`; a thrown error is caught
and yields `false`. -/
def isHealthRelated (gen : List GenPart → Except (List Char) (List Char))
    (message : List Char) : Bool :=
  match gen [GenPart.text (classifyPrompt message)] with
  | Except.error _ => false
  | Except.ok reply => jsLowerTrim reply == "true".data

/-- The formatting instruction template wrapped around a chat query
(shared verbatim by both chat endpoints). -/
def chatTemplate (message : List Char) : List Char :=
  "Please provide a response to this health-related query in the following format:\n          - Each main point should be a separate, complete sentence\n          - If there are related subpoints, include them in the same sentence using appropriate connecting words (and, additionally, moreover, including, such as, etc.)\n          - Do not use bullet points, markdown, or special formatting\n          - Each point should be on a new line\n          - Keep the points concise but informative\n          Query: ".data ++
    message

/-- The fixed instruction substituted when only an image is provided. -/
def analyzeImageInstruction : List Char :=
  "Please analyze this image and provide observations in the following format:\n          - Each main point should be a separate, complete sentence\n          - If there are related details, include them in the same sentence using appropriate connecting words\n          - Do not use bullet points, markdown, or special formatting\n          - Each point should be on a new line\n          - Keep the points concise but informative".data

/-- Outcome of the text-only chat endpoint.  The success timestamp is not
modelled (it is read from the wall clock at response time). -/
inductive ChatResult where
  | missingInput
  | outOfDomain
  | generationFailure (details : List Char)
  | success (points : List (List Char))
deriving DecidableEq

/-- Model of `app.post("/api/chat")`: require a truthy `message`, gate on
`isHealthRelated`, call the capability with the templated query, normalize
the reply into points.  The second component lists the capability calls
made while handling the request. -/
def apiChat (gen : List GenPart → Except (List Char) (List Char))
    (message : Option (List Char)) : ChatResult × List GenCall :=
  match message with
  | none => (ChatResult.missingInput, [])
  | some msg =>
    if msg.isEmpty then (ChatResult.missingInput, [])
    else if isHealthRelated gen msg then
      match gen [GenPart.text (chatTemplate msg)] with
      | Except.ok reply =>
        (ChatResult.success (normalizePoints reply),
          [GenCall.classify [GenPart.text (classifyPrompt msg)],
            GenCall.answer [GenPart.text (chatTemplate msg)]])
      | Except.error e =>
        (ChatResult.generationFailure e,
          [GenCall.classify [GenPart.text (classifyPrompt msg)],
            GenCall.answer [GenPart.text (chatTemplate msg)]])
    else
      (ChatResult.outOfDomain, [GenCall.classify [GenPart.text (classifyPrompt msg)]])

/-- The base64 alphabet used by `Buffer.toString("base64")`. -/
def base64Chars : List Char :=
  "ABCDEFGHIJKLMNOPQRSTUVWXYZabcdefghijklmnopqrstuvwxyz0123456789+/".data

/-- One output character of the base64 encoding. -/
def b64Char (n : Nat) : Char :=
  base64Chars.getD n 'A'

/-- Standard base64 with padding over a byte list, as produced by
`Buffer.from(bytes).toString("base64")`. -/
def base64Encode : List Nat → List Char
  | [] => []
  | [a] => [b64Char (a / 4), b64Char (a % 4 * 16), '=', '=']
  | [a, b] => [b64Char (a / 4), b64Char (a % 4 * 16 + b / 16), b64Char (b % 16 * 4), '=']
  | a :: b :: c :: rest =>
    b64Char (a / 4) :: b64Char (a % 4 * 16 + b / 16) :: b64Char (b % 16 * 4 + c / 64) ::
      b64Char (c % 64) :: base64Encode rest

deriving instance DecidableEq for Except

/-- An uploaded temporary image file as the handler sees it: its path and
declared media type, and the outcome of `fs.readFileSync` on it. -/
structure ImageFile where
  path : List Char
  mimetype : List Char
  content : Except (List Char) (List Nat)
deriving DecidableEq

/-- Model of `fileToGenerativePart`: read the file, base64-encode it into
an inline-data part; a read failure is rethrown as
"Could not read image file.". -/
def fileToGenerativePart (f : ImageFile) : Except (List Char) GenPart :=
  match f.content with
  | Except.ok bytes => Except.ok (GenPart.inlineData (base64Encode bytes) f.mimetype)
  | Except.error _ => Except.error "Could not read image file.".data

/-- Truthiness of the optional `message` field of the multipart form. -/
def textTruthy : Option (List Char) → Bool
  | none => false
  | some t => !t.isEmpty

/-- Outcome of the image chat endpoint. -/
inductive ImageChatResult where
  | missingInput
  | outOfDomain
  | imageProcessingFailure (details : List Char)
  | generationFailure (details : List Char)
  | success (points : List (List Char))
deriving DecidableEq

/-- The generation step shared by both exits of the image endpoint's
prompt assembly. -/
def imageGenerationStep (gen : List GenPart → Except (List Char) (List Char))
    (finalParts : List GenPart) (baseTrace : List GenCall) :
    ImageChatResult × List GenCall :=
  match gen finalParts with
  | Except.ok reply =>
    (ImageChatResult.success (normalizePoints reply), baseTrace ++ [GenCall.answer finalParts])
  | Except.error e =>
    (ImageChatResult.generationFailure e, baseTrace ++ [GenCall.answer finalParts])

/-- Model of `app.post("/api/chat-with-image")`: require text or image;
gate on `isHealthRelated` only when text is present; convert the image to
an inline part (failure → image-processing error); replace the text part
with the templated query, or, text absent, unshift the fixed
image-analysis instruction; then generate and normalize. -/
def apiChatWithImage (gen : List GenPart → Except (List Char) (List Char))
    (userText : Option (List Char)) (imageFile : Option ImageFile) :
    ImageChatResult × List GenCall :=
  if !textTruthy userText && imageFile.isNone then
    (ImageChatResult.missingInput, [])
  else if textTruthy userText && !isHealthRelated gen (userText.getD []) then
    (ImageChatResult.outOfDomain,
      [GenCall.classify [GenPart.text (classifyPrompt (userText.getD []))]])
  else
    let baseTrace : List GenCall :=
      if textTruthy userText then
        [GenCall.classify [GenPart.text (classifyPrompt (userText.getD []))]]
      else []
    match imageFile with
    | some f =>
      match fileToGenerativePart f with
      | Except.error e => (ImageChatResult.imageProcessingFailure e, baseTrace)
      | Except.ok imagePart =>
        if textTruthy userText then
          imageGenerationStep gen
            [GenPart.text (chatTemplate (userText.getD [])), imagePart] baseTrace
        else
          imageGenerationStep gen
            [GenPart.text analyzeImageInstruction, imagePart] baseTrace
    | none =>
      imageGenerationStep gen [GenPart.text (chatTemplate (userText.getD []))] baseTrace

/-- A parsed JSON value.  Numbers keep their source lexeme: no claim here
depends on numeric semantics, only on the shape of values. -/
inductive JsonVal where
  | null
  | bool (b : Bool)
  | num (lexeme : List Char)
  | str (s : List Char)
  | arr (elems : List JsonVal)
  | obj (fields : List (List Char × JsonVal))

/-- JSON's own whitespace (stricter than `isWs`): space, tab, newline,
carriage return. -/
def jsonWs (c : Char) : Bool :=
  c == ' ' || c == '\t' || c == '\n' || c == '\r'

/-- Skip JSON whitespace. -/
def skipJsonWs (l : List Char) : List Char :=
  l.dropWhile jsonWs

/-- Value of a hexadecimal digit. -/
def hexVal (c : Char) : Option Nat :=
  let n := c.toNat
  if 0x30 ≤ n ∧ n ≤ 0x39 then some (n - 0x30)
  else if 0x61 ≤ n ∧ n ≤ 0x66 then some (n - 0x57)
  else if 0x41 ≤ n ∧ n ≤ 0x46 then some (n - 0x37)
  else none

/-- JSON string escape characters. -/
def escChar : Char → Option Char
  | '\"' => some '\"'
  | '\\' => some '\\'
  | '/' => some '/'
  | 'b' => some '\x08'
  | 'f' => some '\x0C'
  | 'n' => some '\n'
  | 'r' => some '\r'
  | 't' => some '\t'
  | _ => none

/-- Parse the remainder of a JSON string literal (the opening quote is
already consumed); returns the decoded characters and the rest of the
input.  A lone `\u` surrogate decodes to `Char.ofNat`'s replacement, the
one divergence from JavaScript strings, which no claim exercises. -/
def pStr : Nat → List Char → Option (List Char × List Char)
  | 0, _ => none
  | _ + 1, [] => none
  | fuel + 1, c :: rest =>
    if c == '\"' then some ([], rest)
    else if c == '\\' then
      match rest with
      | [] => none
      | e :: r =>
        if e == 'u' then
          match r with
          | a :: b :: c2 :: d :: r2 =>
            match hexVal a, hexVal b, hexVal c2, hexVal d with
            | some ha, some hb, some hc, some hd =>
              (pStr fuel r2).map
                (fun sr => (Char.ofNat (((ha * 16 + hb) * 16 + hc) * 16 + hd) :: sr.1, sr.2))
            | _, _, _, _ => none
          | _ => none
        else
          match escChar e with
          | some ec => (pStr fuel r).map (fun sr => (ec :: sr.1, sr.2))
          | none => none
    else if c.toNat < 0x20 then none
    else (pStr fuel rest).map (fun sr => (c :: sr.1, sr.2))

/-- Parse the fraction and exponent tail of a JSON number whose integer
part is `acc`. -/
def pNumTail (acc : List Char) (l : List Char) : Option (JsonVal × List Char) :=
  let step1 : Option (List Char × List Char) :=
    match l with
    | '.' :: r =>
      let ds := r.takeWhile Char.isDigit
      if ds.isEmpty then none else some (acc ++ '.' :: ds, r.dropWhile Char.isDigit)
    | _ => some (acc, l)
  match step1 with
  | none => none
  | some (acc2, l2) =>
    match l2 with
    | e :: r =>
      if e == 'e' || e == 'E' then
        let sr : List Char × List Char :=
          match r with
          | '+' :: rr => (['+'], rr)
          | '-' :: rr => (['-'], rr)
          | _ => ([], r)
        let ds := sr.2.takeWhile Char.isDigit
        if ds.isEmpty then none
        else some (JsonVal.num (acc2 ++ e :: sr.1 ++ ds), sr.2.dropWhile Char.isDigit)
      else some (JsonVal.num acc2, l2)
    | [] => some (JsonVal.num acc2, [])

/-- Parse a JSON number (grammar `-?(0|[1-9][0-9]*)(\.[0-9]+)?([eE][+-]?[0-9]+)?`). -/
def pNum (l : List Char) : Option (JsonVal × List Char) :=
  let sl : List Char × List Char :=
    match l with
    | '-' :: r => (['-'], r)
    | _ => ([], l)
  match sl.2 with
  | [] => none
  | c :: r =>
    if c == '0' then pNumTail (sl.1 ++ ['0']) r
    else if c.isDigit then
      pNumTail (sl.1 ++ c :: r.takeWhile Char.isDigit) (r.dropWhile Char.isDigit)
    else none

mutual

/-- Parse one JSON value from input whose leading whitespace is already
skipped. -/
def pVal : Nat → List Char → Option (JsonVal × List Char)
  | 0, _ => none
  | fuel + 1, l =>
    match l with
    | [] => none
    | c :: rest =>
      if c == '\"' then (pStr fuel rest).map (fun sr => (JsonVal.str sr.1, sr.2))
      else if c == '[' then
        match skipJsonWs rest with
        | ']' :: r => some (JsonVal.arr [], r)
        | l2 => pElems fuel l2 []
      else if c == '\x7B' then
        match skipJsonWs rest with
        | '\x7D' :: r => some (JsonVal.obj [], r)
        | l2 => pFields fuel l2 []
      else if c == 't' then
        match rest with
        | 'r' :: 'u' :: 'e' :: r => some (JsonVal.bool true, r)
        | _ => none
      else if c == 'f' then
        match rest with
        | 'a' :: 'l' :: 's' :: 'e' :: r => some (JsonVal.bool false, r)
        | _ => none
      else if c == 'n' then
        match rest with
        | 'u' :: 'l' :: 'l' :: r => some (JsonVal.null, r)
        | _ => none
      else pNum (c :: rest)

/-- Parse the elements of a non-empty JSON array (after `[`). -/
def pElems : Nat → List Char → List JsonVal → Option (JsonVal × List Char)
  | 0, _, _ => none
  | fuel + 1, l, acc =>
    match pVal fuel l with
    | none => none
    | some (v, r) =>
      match skipJsonWs r with
      | ',' :: r2 => pElems fuel (skipJsonWs r2) (acc ++ [v])
      | ']' :: r2 => some (JsonVal.arr (acc ++ [v]), r2)
      | _ => none

/-- Parse the fields of a non-empty JSON object (after the opening
brace). -/
def pFields : Nat → List Char → List (List Char × JsonVal) → Option (JsonVal × List Char)
  | 0, _, _ => none
  | fuel + 1, l, acc =>
    match l with
    | '\"' :: r =>
      match pStr fuel r with
      | none => none
      | some (key, r2) =>
        match skipJsonWs r2 with
        | ':' :: r3 =>
          match pVal fuel (skipJsonWs r3) with
          | none => none
          | some (v, r4) =>
            match skipJsonWs r4 with
            | ',' :: r5 => pFields fuel (skipJsonWs r5) (acc ++ [(key, v)])
            | '\x7D' :: r5 => some (JsonVal.obj (acc ++ [(key, v)]), r5)
            | _ => none
        | _ => none
    | _ => none

end

/-- Model of `JSON.parse`: one value, with surrounding whitespace, and
nothing after it. -/
def jsonParse (l : List Char) : Option JsonVal :=
  match pVal (l.length + 8) (skipJsonWs l) with
  | some (v, rest) => if (skipJsonWs rest).isEmpty then some v else none
  | none => none

/-- Test of `raw.startsWith("\x60\x60\x60")` (a triple backtick). -/
def startsWithFence (l : List Char) : Bool :=
  l.take 3 == "```".data

/-- Model of `raw.replace(/^```(?:json)?\s*/, "")` in the branch where the
input starts with a fence. -/
def stripLeadingFence (l : List Char) : List Char :=
  if l.take 3 == "```".data then
    (if (l.drop 3).take 4 == "json".data then (l.drop 3).drop 4 else l.drop 3).dropWhile isWs
  else l

/-- Model of `raw.replace(/\s*```$/, "")`: remove a trailing fence and the
whitespace run before it. -/
def stripTrailingFence (l : List Char) : List Char :=
  if l.reverse.take 3 == "```".data then ((l.reverse.drop 3).dropWhile isWs).reverse
  else l

/-- The fence-stripping step of the routine generator: both replaces run
only when the (already trimmed) raw reply starts with a fence. -/
def stripFences (raw : List Char) : List Char :=
  if startsWithFence raw then stripTrailingFence (stripLeadingFence raw) else raw

/-- The element check `routineTasks.every((t) => typeof t === "string")`,
returning the strings when it holds. -/
def extractStrings : List JsonVal → Option (List (List Char))
  | [] => some []
  | JsonVal.str s :: rest => (extractStrings rest).map (fun ts => s :: ts)
  | _ => none

/-- The shape check `Array.isArray(routineTasks) && every string`. -/
def asStringArray : JsonVal → Option (List (List Char))
  | JsonVal.arr xs => extractStrings xs
  | _ => none

/-- The reply-parsing stage of the routine generator: trim, strip an
optional fence, `JSON.parse`, require an array of strings. -/
def parseRoutineReply (reply : List Char) : Except Unit (List (List Char)) :=
  match jsonParse (stripFences (trimChars reply)) with
  | none => Except.error ()
  | some v =>
    match asStringArray v with
    | none => Except.error ()
    | some tasks => Except.ok tasks

/-- JavaScript truthiness of an optional JSON body field (`!userId`,
`!answers`). -/
def jsFalsy : Option JsonVal → Bool
  | none => true
  | some JsonVal.null => true
  | some (JsonVal.bool b) => !b
  | some (JsonVal.num lex) => lex == ['0']
  | some (JsonVal.str s) => s.isEmpty
  | some (JsonVal.arr _) => false
  | some (JsonVal.obj _) => false

mutual

/-- JavaScript string coercion of a JSON value, as template-literal
interpolation performs it. -/
def jsToString : JsonVal → List Char
  | JsonVal.null => "null".data
  | JsonVal.bool true => "true".data
  | JsonVal.bool false => "false".data
  | JsonVal.num lex => lex
  | JsonVal.str s => s
  | JsonVal.arr xs => jsArrToString xs
  | JsonVal.obj _ => "[object Object]".data

/-- `Array.prototype.toString`: elements joined with commas, `null`
rendering as the empty string. -/
def jsArrToString : List JsonVal → List Char
  | [] => []
  | [JsonVal.null] => []
  | [v] => jsToString v
  | JsonVal.null :: rest => ',' :: jsArrToString rest
  | v :: rest => jsToString v ++ ',' :: jsArrToString rest

end

/-- The ten static routine questions. -/
def routineQuestions : List (List Char) := [
  "What time do you usually wake up in the morning?".data,
  "What time do you usually go to bed at night?".data,
  "Do you have any specific health conditions or concerns?".data,
  "What is your current activity level? (sedentary, light, moderate, very active)".data,
  "What are your main health and wellness goals?".data,
  "Do you have any dietary restrictions or preferences?".data,
  "How much time can you dedicate to exercise daily?".data,
  "Do you have any specific stress management needs?".data,
  "What is your work schedule like?".data,
  "Do you have any specific sleep issues or requirements?".data]

/-- Join with a separator string (`Array.prototype.join`). -/
def joinWith (sep : List Char) : List (List Char) → List Char
  | [] => []
  | [x] => x
  | x :: rest => x ++ sep ++ joinWith sep rest

/-- Interpolation of `answers[index]` (out-of-range renders as
`undefined`, though validation makes that unreachable). -/
def jsIndexToString (xs : List JsonVal) (i : Nat) : List Char :=
  match xs.get? i with
  | some v => jsToString v
  | none => "undefined".data

/-- The `formattedAnswers` block: `"Q: <question>\nA: <answer>"` pairs
joined by blank lines. -/
def formatAnswers (xs : List JsonVal) : List Char :=
  joinWith "\n\n".data
    (routineQuestions.enum.map
      (fun qi => "Q: ".data ++ qi.2 ++ "\nA: ".data ++ jsIndexToString xs qi.1))

/-- The routine-generation prompt (persona instruction plus the formatted
answers). -/
def routinePromptText (xs : List JsonVal) : List Char :=
  "You are Dr. Early Pulse, a wellness expert. Based on the user's answers, generate a personalized list of daily tasks. Output **only** a JSON array of strings, e.g. [\"Wake up at 6:30 AM\",\"Drink water\",\"...\"]. Do not wrap it in any extra text or markdown.\n\nUser's answers:\n".data ++
    formatAnswers xs

/-- A stored routine document (`routineSchema`). -/
structure RoutineDoc where
  userId : List Char
  routine : List (List Char)
  createdAt : Nat
  updatedAt : Nat
deriving DecidableEq

/-- Replace the first document matching `p` with `d`. -/
def replaceFirst : List RoutineDoc → (RoutineDoc → Bool) → RoutineDoc → List RoutineDoc
  | [], _, _ => []
  | d :: rest, p, d2 => if p d then d2 :: rest else d :: replaceFirst rest p d2

/-- Model of `Routine.findOneAndUpdate({userId}, {routine, updatedAt},
{new: true, upsert: true})`: update the first document of the user in
place (leaving `createdAt` alone), or insert a fresh document whose
`createdAt` default is now; return the post-update document. -/
def findOneAndUpdateUpsert (store : List RoutineDoc) (uid : List Char)
    (tasks : List (List Char)) (now : Nat) : RoutineDoc × List RoutineDoc :=
  match store.find? (fun d => d.userId == uid) with
  | some d =>
    let d2 : RoutineDoc := { d with routine := tasks, updatedAt := now }
    (d2, replaceFirst store (fun d3 => d3.userId == uid) d2)
  | none =>
    let d2 : RoutineDoc := { userId := uid, routine := tasks, createdAt := now, updatedAt := now }
    (d2, store ++ [d2])

/-- Outcome of `POST /api/v1/routine/generate`.  Store failures are not
modelled (the store is a total function here). -/
inductive RoutineResponse where
  | missingUserId
  | answerCountMismatch
  | generationFailure (details : List Char)
  | malformedOutput
  | success (routine : List (List Char)) (createdAt : Nat) (updatedAt : Nat)
deriving DecidableEq

/-- Model of the `/generate` handler: require truthy `userId`; require
`answers` to be an array whose length equals the question count (element
types are not checked); build the prompt; call the capability; parse the
reply; upsert and answer with the post-upsert document. -/
def routineGenerate (gen : List GenPart → Except (List Char) (List Char))
    (store : List RoutineDoc) (userId answers : Option JsonVal) (now : Nat) :
    RoutineResponse × List RoutineDoc × List GenCall :=
  if jsFalsy userId then (RoutineResponse.missingUserId, store, [])
  else
    match answers with
    | some (JsonVal.arr xs) =>
      if xs.length == routineQuestions.length then
        match gen [GenPart.text (routinePromptText xs)] with
        | Except.error e =>
          (RoutineResponse.generationFailure e, store,
            [GenCall.answer [GenPart.text (routinePromptText xs)]])
        | Except.ok reply =>
          match parseRoutineReply reply with
          | Except.error _ =>
            (RoutineResponse.malformedOutput, store,
              [GenCall.answer [GenPart.text (routinePromptText xs)]])
          | Except.ok tasks =>
            let ds := findOneAndUpdateUpsert store (jsToString (userId.getD JsonVal.null)) tasks now
            (RoutineResponse.success ds.1.routine ds.1.createdAt ds.1.updatedAt, ds.2,
              [GenCall.answer [GenPart.text (routinePromptText xs)]])
      else (RoutineResponse.answerCountMismatch, store, [])
    | _ => (RoutineResponse.answerCountMismatch, store, [])

/-- A string in the image of `collapseWs`: every whitespace character is a
plain space and no two adjacent characters are both whitespace. -/
def SpaceNormal (l : List Char) : Prop :=
  (∀ c ∈ l, isWs c = true → c = ' ') ∧
    l.Chain' (fun a b => ¬(isWs a = true ∧ isWs b = true))

theorem removeBold_eq_self : ∀ l : List Char, '*' ∉ l → removeBold l = l := by
  intro l
  induction l using removeBold.induct with
  | case1 => intro _; rfl
  | case2 c => intro _; rfl
  | case3 c d rest h1 ih =>
    intro h
    exfalso
    apply h
    have hc : c = '*' := eq_of_beq (Bool.and_elim_left h1)
    rw [← hc]
    exact List.mem_cons_self _ _
  | case4 c d rest h1 ih =>
    intro h
    simp only [removeBold, h1, Bool.false_eq_true, if_false]
    rw [ih (by simp at h ⊢; tauto)]

theorem mem_removeBold : ∀ l : List Char, ∀ c ∈ removeBold l, c ∈ l := by
  intro l
  induction l using removeBold.induct with
  | case1 => intro c hc; exact absurd hc (List.not_mem_nil c)
  | case2 d => intro c hc; exact hc
  | case3 c d rest h1 ih =>
    intro e he
    simp only [removeBold, h1, if_true] at he
    exact List.mem_cons_of_mem _ (List.mem_cons_of_mem _ (ih e he))
  | case4 c d rest h1 ih =>
    intro e he
    simp only [removeBold, h1, Bool.false_eq_true, if_false] at he
    rcases List.mem_cons.mp he with h | h
    · exact h ▸ List.mem_cons_self _ _
    · exact List.mem_cons_of_mem _ (ih e h)

theorem removeItalic_eq_self (l : List Char) (h : '*' ∉ l) : removeItalic l = l :=
  List.filter_eq_self.mpr (fun c hc => by
    simp only [Bool.not_eq_true']
    exact beq_eq_false_iff_ne.mpr (fun hce => h (hce ▸ hc)))

theorem star_not_mem_removeItalic (l : List Char) : '*' ∉ removeItalic l := by
  intro h
  have := (List.mem_filter.mp h).2
  simp at this

theorem mem_removeItalic (l : List Char) (c : Char) (h : c ∈ removeItalic l) : c ∈ l :=
  (List.mem_filter.mp h).1

theorem stripBullet_cons_of_not (c : Char) (t : List Char)
    (h : (c == '-' || c == '•' || c == '*') = false) : stripBullet (c :: t) = c :: t := by
  simp only [stripBullet, h, Bool.false_eq_true, if_false]

theorem mem_stripBullet (l : List Char) (c : Char) (h : c ∈ stripBullet l) : c ∈ l := by
  match l with
  | [] => exact h
  | d :: rest =>
    simp only [stripBullet] at h
    by_cases hd : (d == '-' || d == '•' || d == '*') = true
    · rw [if_pos hd] at h
      exact List.mem_cons_of_mem _ ((List.dropWhile_sublist _).mem h)
    · rw [if_neg hd] at h
      exact h

theorem stripHeader_cons_of_not (c : Char) (t : List Char) (h : (c == '#') = false) :
    stripHeader (c :: t) = c :: t := by
  simp only [stripHeader, h, Bool.false_eq_true, if_false]

theorem mem_stripHeader (l : List Char) (c : Char) (h : c ∈ stripHeader l) : c ∈ l := by
  match l with
  | [] => exact h
  | d :: rest =>
    simp only [stripHeader] at h
    by_cases hd : (d == '#') = true
    · rw [if_pos hd] at h
      exact ((List.dropWhile_sublist _).trans (List.dropWhile_sublist _)).mem h
    · rw [if_neg hd] at h
      exact h

theorem ws_mem_collapseWsAux :
    ∀ (b : Bool) (l : List Char), ∀ c ∈ collapseWsAux b l, isWs c = true → c = ' ' := by
  intro b l
  induction l generalizing b with
  | nil => intro c hc; exact absurd hc (List.not_mem_nil c)
  | cons d rest ih =>
    intro c hc hw
    by_cases hd : isWs d = true
    · cases b with
      | true =>
        simp only [collapseWsAux, hd, if_true] at hc
        exact ih true c hc hw
      | false =>
        simp only [collapseWsAux, hd, if_true, Bool.false_eq_true, if_false] at hc
        rcases List.mem_cons.mp hc with h | h
        · exact h
        · exact ih true c h hw
    · simp only [collapseWsAux, hd, Bool.false_eq_true, if_false] at hc
      rcases List.mem_cons.mp hc with h | h
      · exact absurd (h ▸ hw) hd
      · exact ih false c h hw

theorem mem_collapseWsAux :
    ∀ (b : Bool) (l : List Char), ∀ c ∈ collapseWsAux b l, c = ' ' ∨ c ∈ l := by
  intro b l
  induction l generalizing b with
  | nil => intro c hc; exact absurd hc (List.not_mem_nil c)
  | cons d rest ih =>
    intro c hc
    by_cases hd : isWs d = true
    · have step : c = ' ' ∨ c ∈ collapseWsAux true rest := by
        cases b with
        | true =>
          simp only [collapseWsAux, hd, if_true] at hc
          exact Or.inr hc
        | false =>
          simp only [collapseWsAux, hd, if_true, Bool.false_eq_true, if_false] at hc
          rcases List.mem_cons.mp hc with h | h
          · exact Or.inl h
          · exact Or.inr h
      rcases step with h | h
      · exact Or.inl h
      · rcases ih true c h with h2 | h2
        · exact Or.inl h2
        · exact Or.inr (List.mem_cons_of_mem _ h2)
    · simp only [collapseWsAux, hd, Bool.false_eq_true, if_false] at hc
      rcases List.mem_cons.mp hc with h | h
      · exact Or.inr (h ▸ List.mem_cons_self _ _)
      · rcases ih false c h with h2 | h2
        · exact Or.inl h2
        · exact Or.inr (List.mem_cons_of_mem _ h2)

theorem head_collapseWsAux_true :
    ∀ l : List Char, ∀ d, (collapseWsAux true l).head? = some d → isWs d = false := by
  intro l
  induction l with
  | nil => intro d hd; exact absurd hd (by simp [collapseWsAux])
  | cons c rest ih =>
    intro d hd
    by_cases hc : isWs c = true
    · simp only [collapseWsAux, hc, if_true] at hd
      exact ih d hd
    · simp only [collapseWsAux, hc, Bool.false_eq_true, if_false, List.head?_cons,
        Option.some.injEq] at hd
      rw [← hd]
      exact Bool.eq_false_iff.mpr hc

theorem chain'_collapseWsAux :
    ∀ (b : Bool) (l : List Char),
      (collapseWsAux b l).Chain' (fun a b2 => ¬(isWs a = true ∧ isWs b2 = true)) := by
  intro b l
  induction l generalizing b with
  | nil => exact List.chain'_nil
  | cons c rest ih =>
    by_cases hc : isWs c = true
    · cases b with
      | true =>
        simp only [collapseWsAux, hc, if_true]
        exact ih true
      | false =>
        simp only [collapseWsAux, hc, if_true, Bool.false_eq_true, if_false]
        refine List.chain'_cons'.mpr ⟨?_, ih true⟩
        intro y hy hcontra
        have := head_collapseWsAux_true rest y hy
        rw [this] at hcontra
        exact absurd hcontra.2 (by simp)
    · simp only [collapseWsAux, hc, Bool.false_eq_true, if_false]
      refine List.chain'_cons'.mpr ⟨?_, ih false⟩
      intro y hy hcontra
      exact absurd hcontra.1 hc

theorem spaceNormal_collapseWs (l : List Char) : SpaceNormal (collapseWs l) :=
  ⟨ws_mem_collapseWsAux false l, chain'_collapseWsAux false l⟩

theorem collapseWsAux_true_eq_false (l : List Char)
    (h : ∀ d, l.head? = some d → isWs d = false) :
    collapseWsAux true l = collapseWsAux false l := by
  cases l with
  | nil => rfl
  | cons d rest =>
    have hd := h d rfl
    simp only [collapseWsAux, hd, Bool.false_eq_true, if_false]

theorem collapseWs_eq_self (l : List Char) (h : SpaceNormal l) : collapseWs l = l := by
  rw [collapseWs]
  induction l with
  | nil => rfl
  | cons c rest ih =>
    have hrest : SpaceNormal rest :=
      ⟨fun d hd hw => h.1 d (List.mem_cons_of_mem _ hd) hw, h.2.tail⟩
    by_cases hc : isWs c = true
    · have hcsp : c = ' ' := h.1 c (List.mem_cons_self _ _) hc
      have hhead : ∀ d, rest.head? = some d → isWs d = false := by
        intro d hd
        cases rest with
        | nil => exact absurd hd (by simp)
        | cons e t =>
          simp only [List.head?_cons, Option.some.injEq] at hd
          have h2 := List.chain'_cons.mp h.2
          subst hd
          by_contra hw
          exact h2.1 ⟨hc, Bool.of_not_eq_false hw⟩
      simp only [collapseWsAux, hc, if_true, Bool.false_eq_true, if_false]
      rw [collapseWsAux_true_eq_false rest hhead, ih hrest, hcsp]
    · simp only [collapseWsAux, hc, Bool.false_eq_true, if_false]
      rw [ih hrest]

theorem dropWhile_ws_head (l : List Char) :
    l.dropWhile isWs = [] ∨ ∃ c t, l.dropWhile isWs = c :: t ∧ isWs c = false := by
  have h := List.head?_dropWhile_not isWs l
  cases hd : (l.dropWhile isWs) with
  | nil => exact Or.inl rfl
  | cons c t =>
    refine Or.inr ⟨c, t, rfl, ?_⟩
    rw [hd] at h
    simpa using h

theorem dropWhile_ws_idem (l : List Char) :
    (l.dropWhile isWs).dropWhile isWs = l.dropWhile isWs := by
  rcases dropWhile_ws_head l with h | ⟨c, t, h, hc⟩
  · rw [h]; rfl
  · rw [h, List.dropWhile_cons_of_neg (by simp [hc])]

theorem dropTrailingWs_isPrefix (l : List Char) : dropTrailingWs l <+: l := by
  rcases List.dropWhile_suffix (l := l.reverse) isWs with ⟨u, hu⟩
  exact ⟨u.reverse, by rw [dropTrailingWs, ← List.reverse_append, hu, List.reverse_reverse]⟩

theorem dropTrailingWs_idem (l : List Char) :
    dropTrailingWs (dropTrailingWs l) = dropTrailingWs l := by
  simp only [dropTrailingWs, List.reverse_reverse]
  rw [dropWhile_ws_idem]

theorem dropWhile_ws_dropTrailingWs (l : List Char)
    (h : l.dropWhile isWs = l) : (dropTrailingWs l).dropWhile isWs = dropTrailingWs l := by
  rcases dropTrailingWs_isPrefix l with ⟨u, hu⟩
  cases hd : dropTrailingWs l with
  | nil => rfl
  | cons c t =>
    rw [hd] at hu
    have hc : isWs c = false := by
      rcases dropWhile_ws_head l with h2 | ⟨c2, t2, h2, hc2⟩
      · rw [h] at h2; rw [h2] at hu; exact absurd hu.symm (by simp)
      · rw [h] at h2
        rw [← hu] at h2
        simp only [List.cons_append, List.cons.injEq] at h2
        rw [h2.1]
        exact hc2
    rw [List.dropWhile_cons_of_neg (by simp [hc])]

theorem trimChars_idem (l : List Char) : trimChars (trimChars l) = trimChars l := by
  simp only [trimChars]
  rw [dropWhile_ws_dropTrailingWs (l.dropWhile isWs) (dropWhile_ws_idem l),
    dropTrailingWs_idem]

theorem mem_dropTrailingWs (l : List Char) (c : Char) (h : c ∈ dropTrailingWs l) : c ∈ l := by
  simp only [dropTrailingWs, List.mem_reverse] at h
  have := (List.dropWhile_sublist isWs (l := l.reverse)).mem h
  simpa using this

theorem mem_trimChars (l : List Char) (c : Char) (h : c ∈ trimChars l) : c ∈ l :=
  (List.dropWhile_sublist isWs (l := l)).mem (mem_dropTrailingWs _ c h)

theorem spaceNormal_dropTrailingWs (l : List Char) (h : SpaceNormal l) :
    SpaceNormal (dropTrailingWs l) := by
  refine ⟨fun c hc hw => h.1 c (mem_dropTrailingWs l c hc) hw, ?_⟩
  rcases dropTrailingWs_isPrefix l with ⟨u, hu⟩
  rw [← hu] at h
  exact (List.chain'_append.mp h.2).1

theorem spaceNormal_trimChars (l : List Char) (h : SpaceNormal l) :
    SpaceNormal (trimChars l) := by
  refine spaceNormal_dropTrailingWs _ ⟨fun c hc hw =>
    h.1 c ((List.dropWhile_sublist isWs).mem hc) hw, ?_⟩
  exact h.2.suffix (List.dropWhile_suffix isWs)

theorem trimChars_eq_nil_iff (l : List Char) :
    trimChars l = [] ↔ ∀ c ∈ l, isWs c = true := by
  constructor
  · intro h c hc
    simp only [trimChars, dropTrailingWs] at h
    have h2 : (l.dropWhile isWs).reverse.dropWhile isWs = [] := by
      cases hd : (l.dropWhile isWs).reverse.dropWhile isWs with
      | nil => rfl
      | cons d t => rw [hd] at h; exact absurd h (by simp)
    have hall : ∀ d ∈ (l.dropWhile isWs).reverse, isWs d = true :=
      List.dropWhile_eq_nil_iff.mp h2
    have hall2 : ∀ d ∈ l.dropWhile isWs, isWs d = true := by
      intro d hd
      exact hall d (List.mem_reverse.mpr hd)
    rcases (List.mem_append.mp (by rw [List.takeWhile_append_dropWhile (p := isWs)]; exact hc :
        c ∈ l.takeWhile isWs ++ l.dropWhile isWs)) with h3 | h3
    · exact List.mem_takeWhile_imp h3
    · exact hall2 c h3
  · intro h
    have : l.dropWhile isWs = [] := List.dropWhile_eq_nil_iff.mpr h
    simp [trimChars, this, dropTrailingWs]

theorem splitLines_ne_nil (l : List Char) : splitLines l ≠ [] := by
  cases l with
  | nil => simp [splitLines]
  | cons c rest =>
    by_cases hc : (c == '\n') = true
    · simp [splitLines, hc]
    · simp only [splitLines, hc, Bool.false_eq_true, if_false]
      cases h : splitLines rest with
      | nil => simp
      | cons line ls => simp

theorem splitLines_no_newline (p : List Char) (h : '\n' ∉ p) : splitLines p = [p] := by
  induction p with
  | nil => rfl
  | cons c rest ih =>
    have hc : (c == '\n') = false := by
      simp only [beq_eq_false_iff_ne, ne_eq]
      intro he
      exact h (he ▸ List.mem_cons_self _ _)
    simp only [splitLines, hc, Bool.false_eq_true, if_false]
    rw [ih (fun hm => h (List.mem_cons_of_mem _ hm))]

theorem splitLines_append_newline (p t : List Char) (h : '\n' ∉ p) :
    splitLines (p ++ '\n' :: t) = p :: splitLines t := by
  induction p with
  | nil => simp [splitLines]
  | cons c rest ih =>
    have hc : (c == '\n') = false := by
      simp only [beq_eq_false_iff_ne, ne_eq]
      intro he
      exact h (he ▸ List.mem_cons_self _ _)
    simp only [List.cons_append, splitLines, hc, Bool.false_eq_true, if_false]
    rw [show rest.append ('\n' :: t) = rest ++ '\n' :: t from rfl,
      ih (fun hm => h (List.mem_cons_of_mem _ hm))]

theorem splitLines_joinPoints :
    ∀ ps : List (List Char), (∀ p ∈ ps, '\n' ∉ p) → ps ≠ [] →
      splitLines (joinPoints ps) = ps := by
  intro ps
  induction ps with
  | nil => intro _ h; exact absurd rfl h
  | cons p rest ih =>
    intro hall _
    cases rest with
    | nil =>
      simp only [joinPoints]
      exact splitLines_no_newline p (hall p (List.mem_cons_self _ _))
    | cons q rest2 =>
      show splitLines (p ++ '\n' :: joinPoints (q :: rest2)) = p :: q :: rest2
      rw [splitLines_append_newline p _ (hall p (List.mem_cons_self _ _))]
      rw [ih (fun r hr => hall r (List.mem_cons_of_mem _ hr)) (by simp)]

theorem mem_splitLines_mem :
    ∀ (l : List Char) (line : List Char), line ∈ splitLines l → ∀ c ∈ line, c ∈ l := by
  intro l
  induction l with
  | nil =>
    intro line hline c hc
    simp only [splitLines, List.mem_singleton] at hline
    rw [hline] at hc
    exact absurd hc (List.not_mem_nil c)
  | cons d rest ih =>
    intro line hline c hc
    by_cases hd : (d == '\n') = true
    · simp only [splitLines, hd, if_true] at hline
      rcases List.mem_cons.mp hline with h | h
      · rw [h] at hc; exact absurd hc (List.not_mem_nil c)
      · exact List.mem_cons_of_mem _ (ih line h c hc)
    · simp only [splitLines, hd, Bool.false_eq_true, if_false] at hline
      cases hs : splitLines rest with
      | nil => exact absurd hs (splitLines_ne_nil rest)
      | cons l0 ls =>
        rw [hs] at hline
        rcases List.mem_cons.mp hline with h | h
        · rw [h] at hc
          rcases List.mem_cons.mp hc with h2 | h2
          · exact h2 ▸ List.mem_cons_self _ _
          · exact List.mem_cons_of_mem _ (ih l0 (hs ▸ List.mem_cons_self _ _) c h2)
        · exact List.mem_cons_of_mem _ (ih line (hs ▸ List.mem_cons_of_mem _ h) c hc)

theorem star_not_mem_cleanLine (l : List Char) : '*' ∉ cleanLine l := by
  intro h
  have h1 := mem_trimChars _ _ h
  rcases mem_collapseWsAux false _ _ h1 with h2 | h2
  · exact absurd h2 (by decide)
  · exact star_not_mem_removeItalic (removeBold l)
      (mem_stripBullet _ _ (mem_stripHeader _ _ h2))

theorem mem_cleanLine (l : List Char) (c : Char) (h : c ∈ cleanLine l) :
    c = ' ' ∨ c ∈ l := by
  have h1 := mem_trimChars _ _ h
  rcases mem_collapseWsAux false _ _ h1 with h2 | h2
  · exact Or.inl h2
  · exact Or.inr (mem_removeBold l c (mem_removeItalic _ _
      (mem_stripBullet _ _ (mem_stripHeader _ _ h2))))

theorem spaceNormal_cleanLine (l : List Char) : SpaceNormal (cleanLine l) :=
  spaceNormal_trimChars _ (spaceNormal_collapseWs _)

theorem trimChars_cleanLine (l : List Char) : trimChars (cleanLine l) = cleanLine l :=
  trimChars_idem _

theorem collapseWsAux_true_all_ws (l : List Char) (h : ∀ c ∈ l, isWs c = true) :
    collapseWsAux true l = [] := by
  induction l with
  | nil => rfl
  | cons c rest ih =>
    simp only [collapseWsAux, h c (List.mem_cons_self _ _), if_true]
    exact ih (fun d hd => h d (List.mem_cons_of_mem _ hd))

theorem cleanLine_of_all_ws (line : List Char) (h : ∀ c ∈ line, isWs c = true) :
    cleanLine line = [] := by
  have hstar : '*' ∉ line := fun hs => by
    have := h '*' hs
    exact absurd this (by decide)
  rw [cleanLine, removeBold_eq_self line hstar, removeItalic_eq_self line hstar]
  cases line with
  | nil => rfl
  | cons c rest =>
    have hc := h c (List.mem_cons_self _ _)
    have hcb : (c == '-' || c == '•' || c == '*') = false := by
      by_contra hb
      have hb2 := Bool.of_not_eq_false hb
      rcases Bool.or_eq_true_iff.mp hb2 with h2 | h2
      · rcases Bool.or_eq_true_iff.mp h2 with h3 | h3
        · rw [eq_of_beq h3] at hc; exact absurd hc (by decide)
        · rw [eq_of_beq h3] at hc; exact absurd hc (by decide)
      · rw [eq_of_beq h2] at hc; exact absurd hc (by decide)
    have hch : (c == '#') = false := by
      by_contra hb
      rw [eq_of_beq (Bool.of_not_eq_false hb)] at hc
      exact absurd hc (by decide)
    rw [stripBullet_cons_of_not c rest hcb, stripHeader_cons_of_not c rest hch]
    simp only [collapseWs, collapseWsAux, hc, if_true, Bool.false_eq_true, if_false]
    rw [collapseWsAux_true_all_ws rest (fun d hd => h d (List.mem_cons_of_mem _ hd))]
    rfl

theorem cleanLine_fix (p : List Char)
    (hstar : '*' ∉ p)
    (hhead : ∀ c t, p = c :: t → c ≠ '-' ∧ c ≠ '•' ∧ c ≠ '#')
    (hsp : SpaceNormal p) (htrim : trimChars p = p) : cleanLine p = p := by
  rw [cleanLine, removeBold_eq_self p hstar, removeItalic_eq_self p hstar]
  have hbul : stripBullet p = p := by
    cases p with
    | nil => rfl
    | cons c t =>
      have hh := hhead c t rfl
      refine stripBullet_cons_of_not c t ?_
      have hc1 : (c == '-') = false := beq_eq_false_iff_ne.mpr hh.1
      have hc2 : (c == '•') = false := beq_eq_false_iff_ne.mpr hh.2.1
      have hc3 : (c == '*') = false := beq_eq_false_iff_ne.mpr (fun he => hstar (he ▸ List.mem_cons_self _ _))
      rw [hc1, hc2, hc3]
      rfl
  have hhdr : stripHeader p = p := by
    cases p with
    | nil => rfl
    | cons c t =>
      exact stripHeader_cons_of_not c t (beq_eq_false_iff_ne.mpr (hhead c t rfl).2.2)
  rw [hbul, hhdr, collapseWs_eq_self p hsp, htrim]

theorem filter_map_filter {α β : Type} (f : α → β) (pre : α → Bool) (q : β → Bool)
    (h : ∀ a, pre a = false → q (f a) = false) :
    ∀ l : List α, ((l.filter pre).map f).filter q = (l.map f).filter q := by
  intro l
  induction l with
  | nil => rfl
  | cons a t ih =>
    by_cases ha : pre a = true
    · simp only [List.filter_cons, ha, if_true, List.map_cons]
      rw [ih]
    · have ha2 : pre a = false := Bool.eq_false_iff.mpr ha
      simp only [List.filter_cons, ha2, Bool.false_eq_true, if_false, List.map_cons]
      rw [ih, h a ha2]
      simp

theorem mem_normalizePoints (text p : List Char) (hp : p ∈ normalizePoints text) :
    (∃ line, line ∈ splitLines text ∧ p = cleanLine line) ∧
      p ≠ [] ∧ startsWithSep p = false ∧ 10 < p.length := by
  simp only [normalizePoints, List.mem_filter, List.mem_map, Bool.and_eq_true,
    Bool.not_eq_true', decide_eq_true_eq] at hp
  obtain ⟨⟨⟨line, hline, hpl⟩, hne, hsep⟩, hlen⟩ := hp
  refine ⟨⟨line, hline.1, hpl.symm⟩, ?_, hsep, hlen⟩
  intro hnil
  rw [hnil] at hne
  exact absurd hne (by simp)

theorem point_props (text p : List Char) (hp : p ∈ normalizePoints text) :
    SpaceNormal p ∧ trimChars p = p ∧ '*' ∉ p ∧ startsWithSep p = false ∧
      10 < p.length ∧ ∀ c ∈ p, c = ' ' ∨ c ∈ text := by
  obtain ⟨⟨line, hline, hpl⟩, hne, hsep, hlen⟩ := mem_normalizePoints text p hp
  subst hpl
  refine ⟨spaceNormal_cleanLine line, trimChars_cleanLine line, star_not_mem_cleanLine line,
    hsep, hlen, ?_⟩
  intro c hc
  rcases mem_cleanLine line c hc with h | h
  · exact Or.inl h
  · exact Or.inr (mem_splitLines_mem text line hline c h)

/-- C1 counterexample: on the line `": hello this is a long line"` the code
discards (leading `:`), while the specification's discard rule keeps it
(it is long and not made solely of separator characters). -/
theorem C1_counterexample :
    normalizePoints ": hello this is a long line".data ≠
      specNormalizePoints ": hello this is a long line".data := by decide

/-- C1 (amended): the normalizer equals the reference algorithm whose
discard rule drops lines that are empty, BEGIN with one of `:`, `#`, `-`,
`=`, or have length at most 10 ("begin with" in place of the spec's
"consist solely of"). -/
theorem C1_normalizer_amended (text : List Char) :
    normalizePoints text = amendedNormalizePoints text := by
  rw [normalizePoints, List.filter_filter, amendedNormalizePoints]
  rw [filter_map_filter cleanLine _ _ ?side]
  case side =>
    intro line hline
    have hnil : trimChars line = [] := by
      simp only [Bool.not_eq_false'] at hline
      exact List.isEmpty_iff.mp hline
    have : cleanLine line = [] :=
      cleanLine_of_all_ws line ((trimChars_eq_nil_iff line).mp hnil)
    rw [this]
    rfl
  refine List.filter_congr ?_
  intro p hp
  simp only [amendedDiscard, Bool.not_or]
  have hd : decide (10 < p.length) = !decide (p.length ≤ 10) := by
    by_cases h : 10 < p.length
    · simp [h, Nat.not_le.mpr h]
    · simp [h, Nat.le_of_not_lt h]
  rw [hd]
  cases p.isEmpty <;> cases startsWithSep p <;> cases decide (p.length ≤ 10) <;> rfl

/-- C2 counterexample: the input line `"•• hello wellness world"` produces
the output point `"• hello wellness world"`, which begins with `•` (only
one bullet marker is stripped and `•` is not in the final separator
filter). -/
theorem C2_counterexample :
    ∃ p ∈ normalizePoints "•• hello wellness world".data, p.head? = some '•' := by decide

/-- C2 (amended): every output point of the normalizer has length greater
than 10 and does not begin with `#`, `-`, or `*` (a leading `•` is
possible, contrary to the claim). -/
theorem C2_points_amended (text p : List Char) (hp : p ∈ normalizePoints text) :
    10 < p.length ∧ ∀ c, p.head? = some c → c ≠ '#' ∧ c ≠ '-' ∧ c ≠ '*' := by
  obtain ⟨hsp, htrim, hstar, hsep, hlen, hmem⟩ := point_props text p hp
  refine ⟨hlen, ?_⟩
  intro c hc
  cases p with
  | nil => exact absurd hc (by simp)
  | cons d t =>
    simp only [List.head?_cons, Option.some.injEq] at hc
    subst hc
    simp only [startsWithSep, Bool.or_eq_false_iff, beq_eq_false_iff_ne, ne_eq] at hsep
    exact ⟨hsep.1.1.2, hsep.1.2, fun he => hstar (he ▸ List.mem_cons_self _ _)⟩

/-- C2 witness: the amended statement at a concrete input. -/
theorem C2_points_witness :
    "hydration is important daily".data ∈
        normalizePoints "hydration is important daily".data ∧
      (10 < "hydration is important daily".data.length ∧
        ∀ c, "hydration is important daily".data.head? = some c →
          c ≠ '#' ∧ c ≠ '-' ∧ c ≠ '*') :=
  ⟨by decide, C2_points_amended "hydration is important daily".data
    "hydration is important daily".data (by decide)⟩

/-- C3 counterexample: normalizing `"•• daily hydration matters"` yields
`["• daily hydration matters"]`; joining and normalizing again strips the
surviving bullet and yields `["daily hydration matters"]`. -/
theorem C3_counterexample :
    normalizePoints (joinPoints (normalizePoints "•• daily hydration matters".data)) ≠
      normalizePoints "•• daily hydration matters".data := by decide

/-- C3 (amended): on every input in which the character `•` does not
occur, the normalizer is idempotent: joining its output with line breaks
and normalizing again yields the same sequence of points. -/
theorem C3_idempotent_amended (text : List Char) (h : '•' ∉ text) :
    normalizePoints (joinPoints (normalizePoints text)) = normalizePoints text := by
  by_cases hnil : normalizePoints text = []
  · rw [hnil]
    rfl
  · have hnn : ∀ p ∈ normalizePoints text, '\n' ∉ p := by
      intro p hp hmem
      have hsp := (point_props text p hp).1
      have := hsp.1 '\n' hmem (by decide)
      exact absurd this (by decide)
    have hpre : ∀ p ∈ normalizePoints text,
        (!(trimChars p).isEmpty) = true := by
      intro p hp
      obtain ⟨hsp, htrim, hstar, hsep, hlen, hmem⟩ := point_props text p hp
      rw [htrim]
      cases p with
      | nil => exact absurd hlen (by decide)
      | cons d t => rfl
    have hclean : ∀ p ∈ normalizePoints text, cleanLine p = p := by
      intro p hp
      obtain ⟨hsp, htrim, hstar, hsep, hlen, hmem⟩ := point_props text p hp
      refine cleanLine_fix p hstar ?_ hsp htrim
      intro c t hct
      subst hct
      simp only [startsWithSep, Bool.or_eq_false_iff, beq_eq_false_iff_ne, ne_eq] at hsep
      refine ⟨hsep.1.2, ?_, hsep.1.1.2⟩
      intro he
      rcases hmem '•' (he ▸ List.mem_cons_self _ _) with h2 | h2
      · exact absurd h2 (by decide)
      · exact h h2
    have hq1 : ∀ p ∈ normalizePoints text,
        (!p.isEmpty && !startsWithSep p) = true := by
      intro p hp
      obtain ⟨⟨line, hline, hpl⟩, hne, hsep, hlen⟩ := mem_normalizePoints text p hp
      simp [hne, hsep]
    have hq2 : ∀ p ∈ normalizePoints text, (decide (10 < p.length)) = true := by
      intro p hp
      obtain ⟨⟨line, hline, hpl⟩, hne, hsep, hlen⟩ := mem_normalizePoints text p hp
      simp [hlen]
    have hmapeq : (normalizePoints text).map cleanLine = normalizePoints text := by
      have h1 : (normalizePoints text).map cleanLine = (normalizePoints text).map id :=
        List.map_congr_left (fun p hp => hclean p hp)
      rw [h1, List.map_id]
    conv_lhs => rw [normalizePoints]
    rw [splitLines_joinPoints (normalizePoints text) hnn hnil,
      List.filter_eq_self.mpr hpre, hmapeq,
      List.filter_eq_self.mpr hq1, List.filter_eq_self.mpr hq2]

/-- C3 witness: the amended statement at a concrete input. -/
theorem C3_idempotent_witness :
    '•' ∉ "drink plenty of water every day".data ∧
      normalizePoints (joinPoints (normalizePoints "drink plenty of water every day".data)) =
        normalizePoints "drink plenty of water every day".data :=
  ⟨by decide, C3_idempotent_amended "drink plenty of water every day".data (by decide)⟩

/-- C4: when the classifier yields `false` on a non-empty text query, both
chat endpoints answer `OutOfDomain` and issue no answer-generation call
(the only recorded capability call is the classification itself). -/
theorem C4_out_of_domain (gen : List GenPart → Except (List Char) (List Char))
    (msg : List Char) (hm : msg ≠ []) (hc : isHealthRelated gen msg = false) :
    (apiChat gen (some msg)).1 = ChatResult.outOfDomain ∧
      (∀ call ∈ (apiChat gen (some msg)).2, call.isAnswer = false) ∧
      ∀ imageFile, (apiChatWithImage gen (some msg) imageFile).1 = ImageChatResult.outOfDomain ∧
        ∀ call ∈ (apiChatWithImage gen (some msg) imageFile).2, call.isAnswer = false := by
  have hmE : msg.isEmpty = false := by
    cases msg with
    | nil => exact absurd rfl hm
    | cons c t => rfl
  have htt : textTruthy (some msg) = true := by simp [textTruthy, hmE]
  refine ⟨?_, ?_, ?_⟩
  · simp [apiChat, hmE, hc]
  · simp [apiChat, hmE, hc, GenCall.isAnswer]
  · intro imageFile
    constructor
    · simp [apiChatWithImage, htt, hc]
    · simp [apiChatWithImage, htt, hc, GenCall.isAnswer]

/-- C4 witness: the hypotheses and conclusion at a concrete oracle that
classifies the query as out of domain. -/
theorem C4_witness :
    ("what is bitcoin".data ≠ ([] : List Char)) ∧
      isHealthRelated (fun _ => Except.ok "false".data) "what is bitcoin".data = false ∧
      ((apiChat (fun _ => Except.ok "false".data) (some "what is bitcoin".data)).1 =
          ChatResult.outOfDomain ∧
        (∀ call ∈ (apiChat (fun _ => Except.ok "false".data)
            (some "what is bitcoin".data)).2, call.isAnswer = false) ∧
        ∀ imageFile, (apiChatWithImage (fun _ => Except.ok "false".data)
            (some "what is bitcoin".data) imageFile).1 = ImageChatResult.outOfDomain ∧
          ∀ call ∈ (apiChatWithImage (fun _ => Except.ok "false".data)
              (some "what is bitcoin".data) imageFile).2, call.isAnswer = false) :=
  ⟨by decide, by decide,
    C4_out_of_domain (fun _ => Except.ok "false".data) "what is bitcoin".data
      (by decide) (by decide)⟩

/-- C5: the classifier returns `true` exactly when the underlying call
succeeds and its reply lower-cases and trims to the literal `"true"`; an
error result of the underlying call yields `false` instead of
propagating. -/
theorem C5_classifier_fail_closed (gen : List GenPart → Except (List Char) (List Char))
    (message : List Char) :
    (isHealthRelated gen message = true ↔
      ∃ r, gen [GenPart.text (classifyPrompt message)] = Except.ok r ∧
        jsLowerTrim r = "true".data) ∧
    ∀ e, gen [GenPart.text (classifyPrompt message)] = Except.error e →
      isHealthRelated gen message = false := by
  constructor
  · rw [isHealthRelated]
    cases hg : gen [GenPart.text (classifyPrompt message)] with
    | error e => simp
    | ok r => simp [beq_iff_eq]
  · intro e he
    rw [isHealthRelated, he]

/-- C5 witness: a failing oracle call makes the classifier answer
`false`. -/
theorem C5_witness :
    (fun _ : List GenPart => (Except.error "network down".data : Except (List Char) (List Char)))
        [GenPart.text (classifyPrompt "is water healthy".data)] =
      Except.error "network down".data ∧
    isHealthRelated
        (fun _ => (Except.error "network down".data : Except (List Char) (List Char)))
        "is water healthy".data = false :=
  ⟨rfl, (C5_classifier_fail_closed
      (fun _ => (Except.error "network down".data : Except (List Char) (List Char)))
      "is water healthy".data).2 "network down".data rfl⟩

/-- C6 (amended): with a truthy `userId`, any `answers` value that is not
an array of length exactly 10 is rejected with `AnswerCountMismatch`
before any capability call; element types are not checked (the claim's
"sequence of strings" is weakened to "array"), and a falsy `userId` takes
priority with `MissingUserId`. -/
theorem C6_answer_count_amended (gen : List GenPart → Except (List Char) (List Char))
    (store : List RoutineDoc) (userId answers : Option JsonVal) (now : Nat)
    (hu : jsFalsy userId = false)
    (ha : ∀ xs, answers = some (JsonVal.arr xs) → xs.length ≠ 10) :
    (routineGenerate gen store userId answers now).1 = RoutineResponse.answerCountMismatch ∧
      (routineGenerate gen store userId answers now).2.2 = [] := by
  simp only [routineGenerate, hu, Bool.false_eq_true, if_false]
  cases answers with
  | none => exact ⟨rfl, rfl⟩
  | some v =>
    cases v with
    | null => exact ⟨rfl, rfl⟩
    | bool b => exact ⟨rfl, rfl⟩
    | num lex => exact ⟨rfl, rfl⟩
    | str s => exact ⟨rfl, rfl⟩
    | obj fields => exact ⟨rfl, rfl⟩
    | arr xs =>
      have hlen : (xs.length == routineQuestions.length) = false := by
        have h10 : routineQuestions.length = 10 := rfl
        rw [h10]
        exact beq_eq_false_iff_ne.mpr (ha xs rfl)
      simp [hlen]

set_option maxRecDepth 40000 in
/-- C6 counterexample: an array of ten numbers is not a sequence of
strings, yet validation passes and the capability is called — the request
fails with `GenerationFailure` from the oracle, not `AnswerCountMismatch`,
and the call trace is non-empty. -/
theorem C6_counterexample :
    (routineGenerate (fun _ => (Except.error "offline".data : Except (List Char) (List Char)))
          [] (some (JsonVal.str "user-1".data))
          (some (JsonVal.arr (List.replicate 10 (JsonVal.num ['3'])))) 0).1 ≠
        RoutineResponse.answerCountMismatch ∧
      (routineGenerate (fun _ => (Except.error "offline".data : Except (List Char) (List Char)))
          [] (some (JsonVal.str "user-1".data))
          (some (JsonVal.arr (List.replicate 10 (JsonVal.num ['3'])))) 0).2.2 ≠ [] := by
  constructor
  · intro hcontra
    have heval : (routineGenerate
        (fun _ => (Except.error "offline".data : Except (List Char) (List Char)))
        [] (some (JsonVal.str "user-1".data))
        (some (JsonVal.arr (List.replicate 10 (JsonVal.num ['3'])))) 0).1 =
        RoutineResponse.generationFailure "offline".data := rfl
    rw [heval] at hcontra
    exact RoutineResponse.noConfusion hcontra
  · intro hcontra
    have heval : (routineGenerate
        (fun _ => (Except.error "offline".data : Except (List Char) (List Char)))
        [] (some (JsonVal.str "user-1".data))
        (some (JsonVal.arr (List.replicate 10 (JsonVal.num ['3'])))) 0).2.2 =
        [GenCall.answer [GenPart.text (routinePromptText (List.replicate 10 (JsonVal.num ['3'])))]] := rfl
    rw [heval] at hcontra
    exact absurd hcontra (by simp)

/-- C6 witness: the amended statement at a concrete short answer list. -/
theorem C6_witness :
    jsFalsy (some (JsonVal.str "user-2".data)) = false ∧
      (∀ xs, (some (JsonVal.arr [JsonVal.str "a".data]) : Option JsonVal) =
          some (JsonVal.arr xs) → xs.length ≠ 10) ∧
      ((routineGenerate (fun _ => (Except.ok "[]".data : Except (List Char) (List Char)))
            [] (some (JsonVal.str "user-2".data))
            (some (JsonVal.arr [JsonVal.str "a".data])) 0).1 =
          RoutineResponse.answerCountMismatch ∧
        (routineGenerate (fun _ => (Except.ok "[]".data : Except (List Char) (List Char)))
            [] (some (JsonVal.str "user-2".data))
            (some (JsonVal.arr [JsonVal.str "a".data])) 0).2.2 = []) := by
  refine ⟨rfl, ?_, ?_⟩
  · intro xs h
    injection h with h1
    injection h1 with h2
    rw [← h2]
    decide
  · exact C6_answer_count_amended _ [] _ _ 0 rfl (by
      intro xs h
      injection h with h1
      injection h1 with h2
      rw [← h2]
      decide)

theorem extractStrings_map_str (ts : List (List Char)) :
    extractStrings (ts.map JsonVal.str) = some ts := by
  induction ts with
  | nil => rfl
  | cons t ts2 ih => simp [extractStrings, ih]

theorem extractStrings_some :
    ∀ (xs : List JsonVal) (ts : List (List Char)),
      extractStrings xs = some ts → xs = ts.map JsonVal.str := by
  intro xs
  induction xs with
  | nil =>
    intro ts h
    simp only [extractStrings, Option.some.injEq] at h
    rw [← h]
    rfl
  | cons v rest ih =>
    intro ts h
    cases v with
    | str s =>
      simp only [extractStrings] at h
      cases he : extractStrings rest with
      | none => rw [he] at h; exact absurd h (by simp)
      | some ts3 =>
        rw [he] at h
        simp only [Option.map_some', Option.some.injEq] at h
        rw [← h, List.map_cons]
        rw [ih ts3 he]
    | null => exact absurd h (by simp [extractStrings])
    | bool b => exact absurd h (by simp [extractStrings])
    | num lex => exact absurd h (by simp [extractStrings])
    | arr xs2 => exact absurd h (by simp [extractStrings])
    | obj fs => exact absurd h (by simp [extractStrings])

theorem map_str_injective (a b : List (List Char))
    (h : a.map JsonVal.str = b.map JsonVal.str) : a = b := by
  induction a generalizing b with
  | nil => cases b with
    | nil => rfl
    | cons y ys => exact absurd h (by simp)
  | cons x xs ih =>
    cases b with
    | nil => exact absurd h (by simp)
    | cons y ys =>
      simp only [List.map_cons, List.cons.injEq] at h
      have h1 : x = y := JsonVal.str.inj h.1
      rw [h1, ih ys h.2]

theorem parseRoutineReply_ok_iff (reply : List Char) (tasks : List (List Char)) :
    parseRoutineReply reply = Except.ok tasks ↔
      jsonParse (stripFences (trimChars reply)) =
        some (JsonVal.arr (tasks.map JsonVal.str)) := by
  rw [parseRoutineReply]
  cases hj : jsonParse (stripFences (trimChars reply)) with
  | none => simp
  | some v =>
    cases ha : asStringArray v with
    | none =>
      simp only [ha]
      constructor
      · intro h
        exact absurd h (by simp)
      · intro h
        simp only [Option.some.injEq] at h
        rw [h] at ha
        rw [show asStringArray (JsonVal.arr (tasks.map JsonVal.str)) =
            extractStrings (tasks.map JsonVal.str) from rfl,
          extractStrings_map_str] at ha
        exact absurd ha (by simp)
    | some ts =>
      simp only [ha]
      have hv : v = JsonVal.arr (ts.map JsonVal.str) := by
        cases v with
        | arr xs => rw [extractStrings_some xs ts ha]
        | null => exact absurd ha (by simp [asStringArray])
        | bool b => exact absurd ha (by simp [asStringArray])
        | num lex => exact absurd ha (by simp [asStringArray])
        | str s => exact absurd ha (by simp [asStringArray])
        | obj fs => exact absurd ha (by simp [asStringArray])
      subst hv
      constructor
      · intro h
        have hts : ts = tasks := by
          have := h
          simp only [Except.ok.injEq] at this
          exact this
        rw [hts]
      · intro h
        simp only [Option.some.injEq, JsonVal.arr.injEq] at h
        rw [map_str_injective ts tasks h]

theorem parseRoutineReply_error_iff (reply : List Char) :
    parseRoutineReply reply = Except.error () ↔
      ¬∃ tasks : List (List Char), jsonParse (stripFences (trimChars reply)) =
        some (JsonVal.arr (tasks.map JsonVal.str)) := by
  constructor
  · intro h hex
    obtain ⟨tasks, ht⟩ := hex
    have h2 := (parseRoutineReply_ok_iff reply tasks).mpr ht
    rw [h] at h2
    exact Except.noConfusion h2
  · intro h
    cases hp : parseRoutineReply reply with
    | error u => cases u; rfl
    | ok ts => exact absurd ⟨ts, (parseRoutineReply_ok_iff reply ts).mp hp⟩ h

theorem dropTrailingWs_append_fence (a : List Char) :
    dropTrailingWs (a ++ "\n```".data) = a ++ "\n```".data := by
  have h0 : ("\n```".data).reverse = ['`', '`', '`', '\n'] := rfl
  have h1 : (a ++ "\n```".data).reverse = '`' :: '`' :: '`' :: '\n' :: a.reverse := by
    rw [List.reverse_append, h0]
    rfl
  rw [dropTrailingWs, h1, List.dropWhile_cons_of_neg (by decide)]
  rw [← h1, List.reverse_reverse]

theorem stripTrailingFence_graft (m : List Char) :
    stripTrailingFence (m ++ "\n```".data) = dropTrailingWs m := by
  have h0 : ("\n```".data).reverse = ['`', '`', '`', '\n'] := rfl
  have h1 : (m ++ "\n```".data).reverse = '`' :: '`' :: '`' :: '\n' :: m.reverse := by
    rw [List.reverse_append, h0]
    rfl
  rw [stripTrailingFence, h1]
  rw [if_pos (by rfl)]
  rw [show ('`' :: '`' :: '`' :: '\n' :: m.reverse).drop 3 = '\n' :: m.reverse from rfl,
    List.dropWhile_cons_of_pos (by decide)]
  rfl

theorem trimChars_wrap_json (reply : List Char) :
    trimChars ("```json\n".data ++ reply ++ "\n```".data) =
      "```json\n".data ++ reply ++ "\n```".data := by
  have h2 : ("```json\n".data ++ reply ++ "\n```".data).dropWhile isWs =
      "```json\n".data ++ reply ++ "\n```".data := rfl
  rw [trimChars, h2, dropTrailingWs_append_fence]

theorem trimChars_wrap_plain (reply : List Char) :
    trimChars ("```\n".data ++ reply ++ "\n```".data) =
      "```\n".data ++ reply ++ "\n```".data := by
  have h2 : ("```\n".data ++ reply ++ "\n```".data).dropWhile isWs =
      "```\n".data ++ reply ++ "\n```".data := rfl
  rw [trimChars, h2, dropTrailingWs_append_fence]

theorem stripFences_wrap_json (reply : List Char) :
    stripFences ("```json\n".data ++ reply ++ "\n```".data) = trimChars reply := by
  have hsw : startsWithFence ("```json\n".data ++ reply ++ "\n```".data) = true := rfl
  rw [stripFences, if_pos hsw]
  have hlead : stripLeadingFence ("```json\n".data ++ reply ++ "\n```".data) =
      (reply ++ "\n```".data).dropWhile isWs := rfl
  rw [hlead, List.dropWhile_append]
  by_cases he : (reply.dropWhile isWs).isEmpty = true
  · rw [if_pos he]
    rw [show ("\n```".data).dropWhile isWs = "```".data from rfl]
    rw [show stripTrailingFence "```".data = [] from rfl]
    rw [trimChars, List.isEmpty_iff.mp he]
    rfl
  · rw [if_neg he, stripTrailingFence_graft]
    rfl

theorem stripFences_wrap_plain (reply : List Char) :
    stripFences ("```\n".data ++ reply ++ "\n```".data) = trimChars reply := by
  have hsw : startsWithFence ("```\n".data ++ reply ++ "\n```".data) = true := rfl
  rw [stripFences, if_pos hsw]
  have hlead : stripLeadingFence ("```\n".data ++ reply ++ "\n```".data) =
      (reply ++ "\n```".data).dropWhile isWs := rfl
  rw [hlead, List.dropWhile_append]
  by_cases he : (reply.dropWhile isWs).isEmpty = true
  · rw [if_pos he]
    rw [show ("\n```".data).dropWhile isWs = "```".data from rfl]
    rw [show stripTrailingFence "```".data = [] from rfl]
    rw [trimChars, List.isEmpty_iff.mp he]
    rfl
  · rw [if_neg he, stripTrailingFence_graft]
    rfl

/-- C7 counterexample: for a model reply that itself begins with a fence,
wrapping it in a `json` fence changes the parse result — unfenced it
parses to an array of strings, wrapped it is malformed (stripping removes
only one fence layer). -/
theorem C7_counterexample :
    parseRoutineReply ("```json\n".data ++ "``` [\"aaaaaaaaaaaa\"]".data ++ "\n```".data) ≠
      parseRoutineReply "``` [\"aaaaaaaaaaaa\"]".data := by
  intro hcontra
  have h1 : parseRoutineReply
      ("```json\n".data ++ "``` [\"aaaaaaaaaaaa\"]".data ++ "\n```".data) =
      Except.error () := rfl
  have h2 : parseRoutineReply "``` [\"aaaaaaaaaaaa\"]".data =
      Except.ok ["aaaaaaaaaaaa".data] := rfl
  rw [h1, h2] at hcontra
  exact Except.noConfusion hcontra

/-- C7 (amended): provided the trimmed reply does not itself begin with a
triple-backtick fence, parsing is invariant under wrapping the reply in a
leading/trailing fence (with or without the `json` tag); and for every
reply, parsing succeeds exactly when the fence-stripped trimmed text
parses as a JSON array of strings, and yields the malformed-output error
in every other case. -/
theorem C7_routine_parse_amended (reply : List Char)
    (h : startsWithFence (trimChars reply) = false) :
    parseRoutineReply ("```json\n".data ++ reply ++ "\n```".data) = parseRoutineReply reply ∧
      parseRoutineReply ("```\n".data ++ reply ++ "\n```".data) = parseRoutineReply reply ∧
      (∀ tasks : List (List Char), parseRoutineReply reply = Except.ok tasks ↔
        jsonParse (stripFences (trimChars reply)) =
          some (JsonVal.arr (tasks.map JsonVal.str))) ∧
      (parseRoutineReply reply = Except.error () ↔
        ¬∃ tasks : List (List Char), jsonParse (stripFences (trimChars reply)) =
          some (JsonVal.arr (tasks.map JsonVal.str))) := by
  have hid : stripFences (trimChars reply) = trimChars reply := by
    rw [stripFences, if_neg (by simp [h])]
  refine ⟨?_, ?_, parseRoutineReply_ok_iff reply, parseRoutineReply_error_iff reply⟩
  · rw [parseRoutineReply, trimChars_wrap_json, stripFences_wrap_json,
      parseRoutineReply, hid]
  · rw [parseRoutineReply, trimChars_wrap_plain, stripFences_wrap_plain,
      parseRoutineReply, hid]

/-- C7 witness: the amended statement at a concrete unfenced reply. -/
theorem C7_witness :
    startsWithFence (trimChars "[\"drink water daily\"]".data) = false ∧
      (parseRoutineReply
            ("```json\n".data ++ "[\"drink water daily\"]".data ++ "\n```".data) =
          parseRoutineReply "[\"drink water daily\"]".data ∧
        parseRoutineReply ("```\n".data ++ "[\"drink water daily\"]".data ++ "\n```".data) =
          parseRoutineReply "[\"drink water daily\"]".data ∧
        (∀ tasks : List (List Char),
          parseRoutineReply "[\"drink water daily\"]".data = Except.ok tasks ↔
            jsonParse (stripFences (trimChars "[\"drink water daily\"]".data)) =
              some (JsonVal.arr (tasks.map JsonVal.str))) ∧
        (parseRoutineReply "[\"drink water daily\"]".data = Except.error () ↔
          ¬∃ tasks : List (List Char),
            jsonParse (stripFences (trimChars "[\"drink water daily\"]".data)) =
              some (JsonVal.arr (tasks.map JsonVal.str)))) :=
  ⟨rfl, C7_routine_parse_amended "[\"drink water daily\"]".data rfl⟩

theorem find?_append_none {α : Type} (p : α → Bool) :
    ∀ a b : List α, a.find? p = none → (a ++ b).find? p = b.find? p := by
  intro a
  induction a with
  | nil => intro b _; rfl
  | cons x t ih =>
    intro b h
    by_cases hx : p x = true
    · rw [List.find?_cons_of_pos _ hx] at h
      exact absurd h (by simp)
    · rw [List.find?_cons_of_neg _ hx] at h
      rw [List.cons_append, List.find?_cons_of_neg _ hx]
      exact ih b h

theorem replaceFirst_append_none (a : List RoutineDoc) (p : RoutineDoc → Bool)
    (x : RoutineDoc) (h : ∀ d ∈ a, p d = false) :
    ∀ l : List RoutineDoc, replaceFirst (a ++ l) p x = a ++ replaceFirst l p x := by
  induction a with
  | nil => intro l; rfl
  | cons d t ih =>
    intro l
    rw [List.cons_append, replaceFirst, if_neg (by rw [h d (List.mem_cons_self _ _)]; simp)]
    rw [ih (fun e he => h e (List.mem_cons_of_mem _ he)) l, List.cons_append]

/-- C8: upserting twice for a user absent from the store leaves exactly
one document for that user; the second upsert replaces `routine`
wholesale and carries the later `updatedAt`, while `createdAt` stays the
time of the first write. -/
theorem C8_upsert_twice (store0 : List RoutineDoc) (uid : List Char)
    (tasks1 tasks2 : List (List Char)) (t1 t2 : Nat)
    (h0 : ∀ d ∈ store0, (d.userId == uid) = false) (ht : t1 < t2) :
    ((findOneAndUpdateUpsert
          (findOneAndUpdateUpsert store0 uid tasks1 t1).2 uid tasks2 t2).2.filter
        (fun d => d.userId == uid)) =
      [(findOneAndUpdateUpsert
          (findOneAndUpdateUpsert store0 uid tasks1 t1).2 uid tasks2 t2).1] ∧
    (findOneAndUpdateUpsert
        (findOneAndUpdateUpsert store0 uid tasks1 t1).2 uid tasks2 t2).1.routine = tasks2 ∧
    (findOneAndUpdateUpsert
        (findOneAndUpdateUpsert store0 uid tasks1 t1).2 uid tasks2 t2).1.createdAt = t1 ∧
    (findOneAndUpdateUpsert
        (findOneAndUpdateUpsert store0 uid tasks1 t1).2 uid tasks2 t2).1.updatedAt = t2 ∧
    (findOneAndUpdateUpsert store0 uid tasks1 t1).1.createdAt = t1 ∧
    (findOneAndUpdateUpsert store0 uid tasks1 t1).1.updatedAt <
      (findOneAndUpdateUpsert
        (findOneAndUpdateUpsert store0 uid tasks1 t1).2 uid tasks2 t2).1.updatedAt := by
  have hf0 : store0.find? (fun d => d.userId == uid) = none :=
    List.find?_eq_none.mpr (fun d hd => by rw [h0 d hd]; simp)
  have h1 : findOneAndUpdateUpsert store0 uid tasks1 t1 =
      (⟨uid, tasks1, t1, t1⟩, store0 ++ [⟨uid, tasks1, t1, t1⟩]) := by
    rw [findOneAndUpdateUpsert, hf0]
  have hfind1 : (store0 ++ [(⟨uid, tasks1, t1, t1⟩ : RoutineDoc)]).find?
      (fun d => d.userId == uid) = some ⟨uid, tasks1, t1, t1⟩ := by
    rw [find?_append_none _ store0 _ hf0, List.find?_cons_of_pos _ (by simp)]
  have h2 : findOneAndUpdateUpsert (store0 ++ [(⟨uid, tasks1, t1, t1⟩ : RoutineDoc)])
      uid tasks2 t2 =
      (⟨uid, tasks2, t1, t2⟩, store0 ++ [⟨uid, tasks2, t1, t2⟩]) := by
    rw [findOneAndUpdateUpsert, hfind1]
    simp only [Prod.mk.injEq]
    constructor
    · trivial
    · rw [replaceFirst_append_none store0 _ _ h0, replaceFirst, if_pos (by simp)]
  rw [h1, h2]
  refine ⟨?_, rfl, rfl, rfl, rfl, ht⟩
  rw [List.filter_append, List.filter_eq_nil_iff.mpr (fun d hd => by rw [h0 d hd]; simp)]
  rw [List.nil_append, List.filter_cons, if_pos (by simp)]
  rfl

/-- C8 witness: the statement at a concrete empty store and two writes. -/
theorem C8_witness :
    (∀ d ∈ ([] : List RoutineDoc), (d.userId == "u1".data) = false) ∧ 0 < 1 ∧
      (((findOneAndUpdateUpsert
            (findOneAndUpdateUpsert [] "u1".data ["walk".data] 0).2 "u1".data
            ["run".data] 1).2.filter (fun d => d.userId == "u1".data)) =
        [(findOneAndUpdateUpsert
            (findOneAndUpdateUpsert [] "u1".data ["walk".data] 0).2 "u1".data
            ["run".data] 1).1] ∧
      (findOneAndUpdateUpsert (findOneAndUpdateUpsert [] "u1".data ["walk".data] 0).2
          "u1".data ["run".data] 1).1.routine = ["run".data] ∧
      (findOneAndUpdateUpsert (findOneAndUpdateUpsert [] "u1".data ["walk".data] 0).2
          "u1".data ["run".data] 1).1.createdAt = 0 ∧
      (findOneAndUpdateUpsert (findOneAndUpdateUpsert [] "u1".data ["walk".data] 0).2
          "u1".data ["run".data] 1).1.updatedAt = 1 ∧
      (findOneAndUpdateUpsert [] "u1".data ["walk".data] 0).1.createdAt = 0 ∧
      (findOneAndUpdateUpsert [] "u1".data ["walk".data] 0).1.updatedAt <
        (findOneAndUpdateUpsert (findOneAndUpdateUpsert [] "u1".data ["walk".data] 0).2
          "u1".data ["run".data] 1).1.updatedAt) :=
  ⟨fun d hd => absurd hd (List.not_mem_nil d), Nat.zero_lt_one,
    C8_upsert_twice [] "u1".data ["walk".data] ["run".data] 0 1
      (fun d hd => absurd hd (List.not_mem_nil d)) Nat.zero_lt_one⟩

set_option maxRecDepth 40000 in
/-- C9 counterexample: an image-only request whose temporary file cannot
be read returns `ImageProcessingFailure` and makes no capability call at
all — generation is not "always invoked". -/
theorem C9_counterexample :
    (apiChatWithImage
        (fun _ => (Except.ok "all looks healthy today".data : Except (List Char) (List Char)))
        none (some ⟨"uploads/img-1.png".data, "image/png".data, Except.error "EACCES".data⟩)).1 =
      ImageChatResult.imageProcessingFailure "Could not read image file.".data ∧
    (apiChatWithImage
        (fun _ => (Except.ok "all looks healthy today".data : Except (List Char) (List Char)))
        none (some ⟨"uploads/img-1.png".data, "image/png".data, Except.error "EACCES".data⟩)).2 =
      [] :=
  ⟨rfl, rfl⟩

/-- C9 (amended): for an image request without text, the classification
gate is always skipped; when the image bytes are readable the capability
is invoked exactly once, with the fixed analyze-this-image instruction
prepended to the inline image part; when reading fails the handler
returns `ImageProcessingFailure` without invoking the capability. -/
theorem C9_image_only_amended (gen : List GenPart → Except (List Char) (List Char))
    (userText : Option (List Char)) (f : ImageFile)
    (hT : textTruthy userText = false) :
    (∀ call ∈ (apiChatWithImage gen userText (some f)).2, call.isClassify = false) ∧
      (∀ bytes, f.content = Except.ok bytes →
        (apiChatWithImage gen userText (some f)).2 =
          [GenCall.answer [GenPart.text analyzeImageInstruction,
            GenPart.inlineData (base64Encode bytes) f.mimetype]]) ∧
      ∀ e, f.content = Except.error e →
        (apiChatWithImage gen userText (some f)).1 =
          ImageChatResult.imageProcessingFailure "Could not read image file.".data ∧
        (apiChatWithImage gen userText (some f)).2 = [] := by
  obtain ⟨pth, mt, cont⟩ := f
  have hmain : apiChatWithImage gen userText (some ⟨pth, mt, cont⟩) =
      match cont with
      | Except.error _ =>
        (ImageChatResult.imageProcessingFailure "Could not read image file.".data, [])
      | Except.ok bytes =>
        imageGenerationStep gen
          [GenPart.text analyzeImageInstruction,
            GenPart.inlineData (base64Encode bytes) mt] [] := by
    rw [apiChatWithImage]
    rw [if_neg (by simp [hT]), if_neg (by simp [hT])]
    simp only [hT, Bool.false_eq_true, if_false]
    cases cont with
    | error e => rfl
    | ok bytes => rfl
  cases cont with
  | error e =>
    rw [hmain]
    refine ⟨?_, ?_, ?_⟩
    · intro call hcall
      exact absurd hcall (List.not_mem_nil call)
    · intro bytes hb
      exact absurd hb (by simp)
    · intro e2 _
      exact ⟨rfl, rfl⟩
  | ok bytes =>
    rw [hmain]
    have htrace : (imageGenerationStep gen
        [GenPart.text analyzeImageInstruction,
          GenPart.inlineData (base64Encode bytes) mt] []).2 =
        [GenCall.answer [GenPart.text analyzeImageInstruction,
          GenPart.inlineData (base64Encode bytes) mt]] := by
      rw [imageGenerationStep]
      cases gen [GenPart.text analyzeImageInstruction,
          GenPart.inlineData (base64Encode bytes) mt] with
      | ok t => rfl
      | error e => rfl
    refine ⟨?_, ?_, ?_⟩
    · intro call hcall
      rw [htrace] at hcall
      rcases List.mem_cons.mp hcall with h | h
      · rw [h]; rfl
      · exact absurd h (List.not_mem_nil call)
    · intro bytes2 hb
      have : bytes2 = bytes := by
        injection hb with h2
        rw [h2]
      rw [this, htrace]
    · intro e2 he
      exact absurd he (by simp)

set_option maxRecDepth 40000 in
/-- C9 witness: the amended statement at a concrete readable image. -/
theorem C9_witness :
    textTruthy none = false ∧
      ((∀ call ∈ (apiChatWithImage
            (fun _ => (Except.ok "the scan looks normal overall".data :
              Except (List Char) (List Char)))
            none (some ⟨"uploads/x.png".data, "image/png".data, Except.ok [1, 2, 3]⟩)).2,
          call.isClassify = false) ∧
        (∀ bytes, (Except.ok [1, 2, 3] : Except (List Char) (List Nat)) = Except.ok bytes →
          (apiChatWithImage
              (fun _ => (Except.ok "the scan looks normal overall".data :
                Except (List Char) (List Char)))
              none (some ⟨"uploads/x.png".data, "image/png".data, Except.ok [1, 2, 3]⟩)).2 =
            [GenCall.answer [GenPart.text analyzeImageInstruction,
              GenPart.inlineData (base64Encode bytes) "image/png".data]]) ∧
        ∀ e, (Except.ok [1, 2, 3] : Except (List Char) (List Nat)) = Except.error e →
          (apiChatWithImage
              (fun _ => (Except.ok "the scan looks normal overall".data :
                Except (List Char) (List Char)))
              none (some ⟨"uploads/x.png".data, "image/png".data, Except.ok [1, 2, 3]⟩)).1 =
            ImageChatResult.imageProcessingFailure "Could not read image file.".data ∧
          (apiChatWithImage
              (fun _ => (Except.ok "the scan looks normal overall".data :
                Except (List Char) (List Char)))
              none (some ⟨"uploads/x.png".data, "image/png".data, Except.ok [1, 2, 3]⟩)).2 =
            []) :=
  ⟨rfl, C9_image_only_amended
    (fun _ => (Except.ok "the scan looks normal overall".data : Except (List Char) (List Char)))
    none ⟨"uploads/x.png".data, "image/png".data, Except.ok [1, 2, 3]⟩ rfl⟩

theorem mem_replaceFirst_of_find? (p : RoutineDoc → Bool) (x : RoutineDoc) :
    ∀ (l : List RoutineDoc) (d : RoutineDoc), l.find? p = some d →
      x ∈ replaceFirst l p x := by
  intro l
  induction l with
  | nil => intro d hd; exact absurd hd (by simp)
  | cons e t ih =>
    intro d hd
    by_cases he : p e = true
    · rw [replaceFirst, if_pos he]
      exact List.mem_cons_self _ _
    · rw [List.find?_cons_of_neg _ he] at hd
      rw [replaceFirst, if_neg he]
      exact List.mem_cons_of_mem _ (ih d hd)

theorem upsert_result_props (store : List RoutineDoc) (uid : List Char)
    (tasks : List (List Char)) (now : Nat) :
    (findOneAndUpdateUpsert store uid tasks now).1.routine = tasks ∧
      ((findOneAndUpdateUpsert store uid tasks now).1.userId == uid) = true ∧
      (findOneAndUpdateUpsert store uid tasks now).1 ∈
        (findOneAndUpdateUpsert store uid tasks now).2 := by
  cases hf : store.find? (fun d => d.userId == uid) with
  | some d =>
    have hd : (d.userId == uid) = true := by
      have h2 := List.find?_some hf
      simpa using h2
    rw [findOneAndUpdateUpsert, hf]
    exact ⟨rfl, hd, mem_replaceFirst_of_find? _ _ store d hf⟩
  | none =>
    rw [findOneAndUpdateUpsert, hf]
    refine ⟨rfl, by simp, ?_⟩
    exact List.mem_append_right _ (List.mem_singleton.mpr rfl)

/-- C10: when the capability's reply for a valid routine request parses
(after trimming and fence stripping) to the empty JSON array, the handler
treats it as valid: it answers success with the empty routine and the
post-upsert store holds an empty routine document for the user. -/
theorem C10_empty_routine (gen : List GenPart → Except (List Char) (List Char))
    (store0 : List RoutineDoc) (userId answers : Option JsonVal) (now : Nat)
    (xs : List JsonVal) (reply : List Char)
    (hu : jsFalsy userId = false)
    (ha : answers = some (JsonVal.arr xs)) (hlen : xs.length = 10)
    (hg : gen [GenPart.text (routinePromptText xs)] = Except.ok reply)
    (hp : jsonParse (stripFences (trimChars reply)) = some (JsonVal.arr [])) :
    (∃ c u, (routineGenerate gen store0 userId answers now).1 =
        RoutineResponse.success [] c u) ∧
      ∃ d ∈ (routineGenerate gen store0 userId answers now).2.1,
        (d.userId == jsToString (userId.getD JsonVal.null)) = true ∧ d.routine = [] := by
  subst ha
  have hparse : parseRoutineReply reply = Except.ok [] := by
    rw [parseRoutineReply, hp]
    rfl
  have hblen : (xs.length == routineQuestions.length) = true := by
    rw [hlen]
    rfl
  simp only [routineGenerate, hu, Bool.false_eq_true, if_false, hblen, if_true, hg, hparse]
  refine ⟨⟨(findOneAndUpdateUpsert store0 (jsToString (userId.getD JsonVal.null)) [] now).1.createdAt,
    (findOneAndUpdateUpsert store0 (jsToString (userId.getD JsonVal.null)) [] now).1.updatedAt, ?_⟩, ?_⟩
  · rw [(upsert_result_props store0 (jsToString (userId.getD JsonVal.null)) [] now).1]
  · exact ⟨(findOneAndUpdateUpsert store0 (jsToString (userId.getD JsonVal.null)) [] now).1,
      (upsert_result_props store0 (jsToString (userId.getD JsonVal.null)) [] now).2.2,
      (upsert_result_props store0 (jsToString (userId.getD JsonVal.null)) [] now).2.1,
      (upsert_result_props store0 (jsToString (userId.getD JsonVal.null)) [] now).1⟩

set_option maxRecDepth 40000 in
/-- C10 witness: a reply of a fenced empty array at a concrete valid
request. -/
theorem C10_witness :
    jsFalsy (some (JsonVal.str "u9".data)) = false ∧
      (some (JsonVal.arr (List.replicate 10 (JsonVal.str "ok".data))) : Option JsonVal) =
        some (JsonVal.arr (List.replicate 10 (JsonVal.str "ok".data))) ∧
      (List.replicate 10 (JsonVal.str "ok".data)).length = 10 ∧
      (fun _ : List GenPart => (Except.ok "```json\n[]\n```".data :
          Except (List Char) (List Char)))
        [GenPart.text (routinePromptText (List.replicate 10 (JsonVal.str "ok".data)))] =
        Except.ok "```json\n[]\n```".data ∧
      jsonParse (stripFences (trimChars "```json\n[]\n```".data)) =
        some (JsonVal.arr []) ∧
      ((∃ c u, (routineGenerate
            (fun _ => (Except.ok "```json\n[]\n```".data : Except (List Char) (List Char)))
            [] (some (JsonVal.str "u9".data))
            (some (JsonVal.arr (List.replicate 10 (JsonVal.str "ok".data)))) 7).1 =
          RoutineResponse.success [] c u) ∧
        ∃ d ∈ (routineGenerate
            (fun _ => (Except.ok "```json\n[]\n```".data : Except (List Char) (List Char)))
            [] (some (JsonVal.str "u9".data))
            (some (JsonVal.arr (List.replicate 10 (JsonVal.str "ok".data)))) 7).2.1,
          (d.userId == jsToString ((some (JsonVal.str "u9".data) : Option JsonVal).getD
            JsonVal.null)) = true ∧ d.routine = []) :=
  ⟨rfl, rfl, rfl, rfl, rfl,
    C10_empty_routine
      (fun _ => (Except.ok "```json\n[]\n```".data : Except (List Char) (List Char)))
      [] (some (JsonVal.str "u9".data))
      (some (JsonVal.arr (List.replicate 10 (JsonVal.str "ok".data)))) 7
      (List.replicate 10 (JsonVal.str "ok".data)) "```json\n[]\n```".data
      rfl rfl rfl rfl rfl⟩
